import Mathlib

/-!
Verification of the rebalancing planner in `equalizer.py` (k8s-equalizer).

The planner's pure core is shallowly embedded here:

* `Pod` is the record of pod fields the planner reads; Python's optional
  fields (`priority`, `start_time`) are `Option`s, the annotation dictionary
  is an association list and the owner references are kept as their kinds.
* `_is_evictable`, `_is_managed_by_daemonset` and `_pod_sort_key` mirror the
  predicates and sort key of the source.  Python's stable `sorted` is
  modelled by `List.insertionSort`, which places an element before all
  later elements whose key is not smaller, and is therefore the unique
  stable sort for a total preorder - the same output `sorted` produces.
* `compute_targets` returns `Except`: on an empty node list the source
  crashes in `divmod(total, len(nodes))` with a `ZeroDivisionError`.
* `plan_evictions` is the per-node loop, unrolled as a map over nodes;
  the shortage warnings printed by the source are modelled as returned
  `Shortage` records (`plan_warnings`).
* `execute_plan` consumes the plan with an abstract eviction sink
  `evict : Pod → Bool` (`true` = the API call succeeded); the printed
  cap warning and per-pod error logs are modelled as fields of the
  returned `ExecResult`.  The grace period only parametrises the request
  body the sink receives, so it is folded into the abstract sink.

Timestamps are modelled as integers: only their ordering matters to the
planner.  The missing start time, which the source maps to `float("inf")`
before negating the key, is the `none` of an `Option Int` whose order
`negLE` puts it below every integer (it stands for `-inf` after negation).
-/

namespace Equalizer

/-- A pod as the planner reads it: namespace, name, annotation dictionary,
kinds of the owner references, phase, optional priority and optional start
time (an integral timestamp; only its order is used). -/
structure Pod where
  ns : String
  name : String
  annotations : List (String × String)
  ownerKinds : List String
  phase : String
  priority : Option Int
  startTime : Option Int
deriving DecidableEq

/-- `annotations.get(key)`: the value of the first entry with the key, if any. -/
def annGet (anns : List (String × String)) (k : String) : Option String :=
  (anns.find? (fun kv => kv.1 == k)).map (fun kv => kv.2)

/-- Python truthiness of the result of `annotations.get(key)`:
`None` and the empty string are falsy, every other string is truthy. -/
def truthy : Option String → Bool
  | none => false
  | some s => !(s == "")

/-- `_is_managed_by_daemonset`: some owner reference has kind `DaemonSet`. -/
def _is_managed_by_daemonset (p : Pod) : Bool :=
  p.ownerKinds.any (fun k => k == "DaemonSet")

/-- `_is_evictable`: the four exclusion rules of the source, in order -
truthy config-mirror annotation, safe-to-evict annotation equal to the
string `false`, DaemonSet owner, phase outside Pending/Running. -/
def _is_evictable (p : Pod) : Bool :=
  if truthy (annGet p.annotations "kubernetes.io/config.mirror") then false
  else if annGet p.annotations "cluster-autoscaler.kubernetes.io/safe-to-evict" == some "false" then false
  else if _is_managed_by_daemonset p then false
  else if !(p.phase == "Pending" || p.phase == "Running") then false
  else true

/-- `_pod_sort_key`: `(priority, -start_ts)` with priority defaulting to 0.
A missing start time becomes `float("inf")` in the source, so after the
negation it is `-inf`, modelled by `none` in the second component. -/
def _pod_sort_key (p : Pod) : Int × Option Int :=
  (p.priority.getD 0,
   match p.startTime with
   | some t => some (-t)
   | none => none)

/-- Order on the negated start stamp: `none` stands for `-inf` and is below
every integer. -/
def negLE : Option Int → Option Int → Bool
  | none, _ => true
  | some _, none => false
  | some x, some y => decide (x ≤ y)

/-- Lexicographic comparison of two sort keys, exactly as Python compares
the tuples returned by `_pod_sort_key`. -/
def keyLE (a b : Int × Option Int) : Bool :=
  if a.1 < b.1 then true
  else if b.1 < a.1 then false
  else negLE a.2 b.2

/-- The total preorder on pods induced by `_pod_sort_key`. -/
def podLE (p q : Pod) : Prop :=
  keyLE (_pod_sort_key p) (_pod_sort_key q) = true

instance : DecidableRel podLE := fun p q =>
  inferInstanceAs (Decidable (keyLE (_pod_sort_key p) (_pod_sort_key q) = true))

/-- The ordered candidate list built inside `plan_evictions` for one node:
the node's pods filtered by `_is_evictable` and sorted stably by
`_pod_sort_key` (Python's `sorted` modelled by insertion sort). -/
def node_candidates (pods_by_node : String → List Pod) (node : String) : List Pod :=
  List.insertionSort podLE ((pods_by_node node).filter (fun p => _is_evictable p))

/-- `len(pods_by_node.get(node, ()))`: the current count of one node. -/
def node_count (pods_by_node : String → List Pod) (node : String) : Nat :=
  (pods_by_node node).length

/-- `total = sum(counts.values())`: the dictionary `counts` has one entry per
distinct node, so the sum ranges over the distinct node names. -/
def total_pods (nodes : List String) (pods_by_node : String → List Pod) : Nat :=
  (nodes.dedup.map (node_count pods_by_node)).sum

/-- `ranked_nodes = sorted(nodes, key=lambda name: counts[name], reverse=True)`:
Python's stable descending sort, modelled by insertion sort with the
relation "my count is at least yours". -/
def ranked_nodes (nodes : List String) (pods_by_node : String → List Pod) : List String :=
  List.insertionSort
    (fun a b => node_count pods_by_node b ≤ node_count pods_by_node a) nodes

/-- The errors `compute_targets` can produce.  The source performs
`divmod(total, len(nodes))`, which raises `ZeroDivisionError` when the node
list is empty; `emptyNodeSet` is the dedicated error the specification
names, which the code never raises. -/
inductive EqError
  | zeroDivisionError
  | emptyNodeSet
deriving DecidableEq

/-- The `targets` dictionary of `compute_targets`: every node starts at
`per_node = total div len(nodes)` and the loop
`for idx in range(extra): targets[ranked_nodes[idx]] += 1` bumps the first
`extra = total mod len(nodes)` ranked nodes. -/
def compute_targets_fn (nodes : List String) (pods_by_node : String → List Pod) :
    String → Nat :=
  ((ranked_nodes nodes pods_by_node).take
      (total_pods nodes pods_by_node % nodes.length)).foldl
    (fun t name => Function.update t name (t name + 1))
    (fun _ => total_pods nodes pods_by_node / nodes.length)

/-- `compute_targets`: fails on an empty node list (the `divmod` call divides
by `len(nodes) = 0`), otherwise returns the targets dictionary as a function
on node names. -/
def compute_targets (nodes : List String) (pods_by_node : String → List Pod) :
    Except EqError (String → Nat) :=
  if nodes.length = 0 then .error .zeroDivisionError
  else .ok (compute_targets_fn nodes pods_by_node)

/-- One shortage warning printed by `plan_evictions`: the node, how many
pods it is over target (`required`), how many are safe to evict
(`available`), and how many will remain imbalanced (`remaining`). -/
structure Shortage where
  node : String
  required : Int
  available : Nat
  remaining : Int
deriving DecidableEq

/-- `overload = len(pods_by_node.get(node, ())) - targets[node]`
(a Python int, possibly negative). -/
def node_overload (pods_by_node : String → List Pod) (targets : String → Nat)
    (node : String) : Int :=
  ((pods_by_node node).length : Int) - (targets node : Int)

/-- The plan entries one node contributes: nothing when not overloaded,
otherwise the first `overload` ordered candidates (capped at the number of
candidates), paired with the node. -/
def node_plan (pods_by_node : String → List Pod) (targets : String → Nat)
    (node : String) : List (String × Pod) :=
  if node_overload pods_by_node targets node ≤ 0 then []
  else
    ((node_candidates pods_by_node node).take
        (if ((node_candidates pods_by_node node).length : Int) <
            node_overload pods_by_node targets node
         then (((node_candidates pods_by_node node).length : Int))
         else node_overload pods_by_node targets node).toNat).map
      (fun p => (node, p))

/-- The shortage warning one node emits, if any: only an overloaded node
with fewer evictable candidates than its overload warns. -/
def node_shortage (pods_by_node : String → List Pod) (targets : String → Nat)
    (node : String) : Option Shortage :=
  if node_overload pods_by_node targets node ≤ 0 then none
  else if ((node_candidates pods_by_node node).length : Int) <
      node_overload pods_by_node targets node then
    some ⟨node, node_overload pods_by_node targets node,
      (node_candidates pods_by_node node).length,
      node_overload pods_by_node targets node -
        ((node_candidates pods_by_node node).length : Int)⟩
  else none

/-- `plan_evictions`: the per-node loop appends each node's contribution in
node order. -/
def plan_evictions (nodes : List String) (pods_by_node : String → List Pod)
    (targets : String → Nat) : List (String × Pod) :=
  (nodes.map (node_plan pods_by_node targets)).flatten

/-- The shortage warnings `plan_evictions` prints, in node order. -/
def plan_warnings (nodes : List String) (pods_by_node : String → List Pod)
    (targets : String → Nat) : List Shortage :=
  nodes.filterMap (node_shortage pods_by_node targets)

/-- `max_evictions is not None and performed >= max_evictions`. -/
def capReached : Option Nat → Nat → Bool
  | none, _ => false
  | some k, performed => decide (k ≤ performed)

/-- The observable outcome of `execute_plan`: the returned `performed`
count, the pods for which an eviction call was issued (in order), the pods
whose call failed (the per-pod error logs), and whether the cap-reached
warning was printed. -/
structure ExecResult where
  performed : Nat
  attempts : List Pod
  errors : List Pod
  capWarned : Bool
deriving DecidableEq

/-- The loop of `execute_plan`, carrying the `performed` counter: stop with
a warning once the cap is reached, skip the call in dry-run mode, otherwise
call the sink and count only successes, logging failures and continuing. -/
def execute_plan_go (evict : Pod → Bool) (dry_run : Bool) (max_evictions : Option Nat) :
    List (String × Pod) → Nat → ExecResult
  | [], performed => ⟨performed, [], [], false⟩
  | (_, pod) :: rest, performed =>
    if capReached max_evictions performed then ⟨performed, [], [], true⟩
    else if dry_run then execute_plan_go evict dry_run max_evictions rest performed
    else if evict pod then
      let r := execute_plan_go evict dry_run max_evictions rest (performed + 1)
      ⟨r.performed, pod :: r.attempts, r.errors, r.capWarned⟩
    else
      let r := execute_plan_go evict dry_run max_evictions rest performed
      ⟨r.performed, pod :: r.attempts, pod :: r.errors, r.capWarned⟩

/-- `execute_plan`: the empty plan returns 0 immediately, otherwise the loop
runs with the counter starting at 0. -/
def execute_plan (plan : List (String × Pod)) (evict : Pod → Bool) (dry_run : Bool)
    (max_evictions : Option Nat) : ExecResult :=
  if plan.isEmpty then ⟨0, [], [], false⟩
  else execute_plan_go evict dry_run max_evictions plan 0

/-! ### The sort-key order is a total preorder -/

theorem negLE_total (a b : Option Int) : negLE a b = true ∨ negLE b a = true := by
  cases a <;> cases b <;> simp [negLE] <;> omega

theorem negLE_trans {a b c : Option Int} (h1 : negLE a b = true) (h2 : negLE b c = true) :
    negLE a c = true := by
  cases a <;> cases b <;> cases c <;> simp_all [negLE] <;> omega

theorem keyLE_iff (a b : Int × Option Int) :
    keyLE a b = true ↔ (a.1 < b.1 ∨ (a.1 = b.1 ∧ negLE a.2 b.2 = true)) := by
  unfold keyLE
  split_ifs with h1 h2
  · simp [h1]
  · simp only [Bool.false_eq_true, false_iff]
    rintro (h | ⟨he, _⟩)
    · exact h1 h
    · omega
  · have he : a.1 = b.1 := by omega
    simp [he]

theorem keyLE_total (a b : Int × Option Int) : keyLE a b = true ∨ keyLE b a = true := by
  rcases lt_trichotomy a.1 b.1 with h | h | h
  · exact Or.inl ((keyLE_iff a b).mpr (Or.inl h))
  · rcases negLE_total a.2 b.2 with h2 | h2
    · exact Or.inl ((keyLE_iff a b).mpr (Or.inr ⟨h, h2⟩))
    · exact Or.inr ((keyLE_iff b a).mpr (Or.inr ⟨h.symm, h2⟩))
  · exact Or.inr ((keyLE_iff b a).mpr (Or.inl h))

theorem keyLE_trans {a b c : Int × Option Int} (h1 : keyLE a b = true)
    (h2 : keyLE b c = true) : keyLE a c = true := by
  rw [keyLE_iff] at h1 h2 ⊢
  rcases h1 with h1 | ⟨e1, n1⟩ <;> rcases h2 with h2 | ⟨e2, n2⟩
  · exact Or.inl (lt_trans h1 h2)
  · exact Or.inl (by omega)
  · exact Or.inl (by omega)
  · exact Or.inr ⟨by omega, negLE_trans n1 n2⟩

instance : IsTotal Pod podLE :=
  ⟨fun p q => keyLE_total (_pod_sort_key p) (_pod_sort_key q)⟩

instance : IsTrans Pod podLE :=
  ⟨fun _ _ _ h1 h2 => keyLE_trans h1 h2⟩

/-! ### Helper lemmas about the target-bumping loop and sums -/

/-- Applying the `targets[name] += 1` loop over a list of names adds, at each
name, the number of times it occurs in the list. -/
theorem bump_foldl_apply (L : List String) (t : String → Nat) (n : String) :
    (L.foldl (fun t name => Function.update t name (t name + 1)) t) n = t n + L.count n := by
  induction L generalizing t with
  | nil => simp
  | cons a L ih =>
      rw [List.foldl_cons, ih, List.count_cons, Function.update_apply]
      by_cases h : n = a
      · subst h
        simp
        omega
      · have hba : (a == n) = false := beq_eq_false_iff_ne.mpr (Ne.symm h)
        simp [h, hba]

theorem sum_map_add_nat {α : Type} (l : List α) (f g : α → Nat) :
    (l.map (fun x => f x + g x)).sum = (l.map f).sum + (l.map g).sum := by
  induction l with
  | nil => simp
  | cons a l ih => simp [ih]; omega

theorem sum_map_const_nat {α : Type} (l : List α) (c : Nat) :
    (l.map (fun _ => c)).sum = c * l.length := by
  induction l with
  | nil => simp
  | cons a l ih =>
      simp [ih]
      ring

/-- Over a duplicate-free list that contains `b`, the indicator of `b` sums
to one. -/
theorem sum_indicator_eq_one (nodes : List String) (b : String) (hnd : nodes.Nodup)
    (hb : b ∈ nodes) :
    (nodes.map (fun n => if (b == n) = true then 1 else 0)).sum = 1 := by
  induction nodes with
  | nil => cases hb
  | cons a l ih =>
      rcases List.mem_cons.mp hb with h | h
      · subst h
        have hnotin : b ∉ l := (List.nodup_cons.mp hnd).1
        have hz : (l.map (fun n => if (b == n) = true then 1 else 0)).sum = 0 := by
          apply List.sum_eq_zero
          intro x hx
          rcases List.mem_map.mp hx with ⟨m, hm, hxm⟩
          have : (b == m) = false := beq_eq_false_iff_ne.mpr (fun he => hnotin (he ▸ hm))
          simp [this] at hxm
          omega
        have hbb : (b == b) = true := beq_self_eq_true b
        simp only [List.map_cons, List.sum_cons, hbb, if_true, hz]
  -- in the cons case with b in the tail
      · have ha : (b == a) = false := by
          refine beq_eq_false_iff_ne.mpr (fun he => ?_)
          exact (List.nodup_cons.mp hnd).1 (he ▸ h)
        simp only [List.map_cons, List.sum_cons, ha]
        rw [ih (List.nodup_cons.mp hnd).2 h]
        simp

/-- Summing, over a duplicate-free list of nodes, how often each node occurs
in a list `B` of nodes drawn from it gives the length of `B`. -/
theorem sum_map_count_eq_length (nodes : List String) (B : List String)
    (hnd : nodes.Nodup) (hsub : ∀ b ∈ B, b ∈ nodes) :
    (nodes.map (fun n => B.count n)).sum = B.length := by
  induction B with
  | nil => simp
  | cons b B ih =>
      have hcongr : nodes.map (fun n => (b :: B).count n) =
          nodes.map (fun n => B.count n + if (b == n) = true then 1 else 0) := by
        apply List.map_congr_left
        intro a _
        rw [List.count_cons]
      rw [hcongr, sum_map_add_nat, ih (fun x hx => hsub x (List.mem_cons_of_mem b hx)),
        sum_indicator_eq_one nodes b hnd (hsub b (List.mem_cons_self b B))]
      simp

/-- If `f` vanishes on every element of a duplicate-free list except `n`,
the sum of `f` over the list is `f n`. -/
theorem sum_map_eq_single (l : List String) (f : String → Nat) (n : String)
    (hnd : l.Nodup) (hn : n ∈ l) (h0 : ∀ m ∈ l, m ≠ n → f m = 0) :
    (l.map f).sum = f n := by
  induction l with
  | nil => cases hn
  | cons a l ih =>
      rcases List.mem_cons.mp hn with h | h
      · subst h
        have hz : (l.map f).sum = 0 := by
          apply List.sum_eq_zero
          intro x hx
          rcases List.mem_map.mp hx with ⟨m, hm, hxm⟩
          have : m ≠ n := fun he => (List.nodup_cons.mp hnd).1 (he ▸ hm)
          rw [← hxm]
          exact h0 m (List.mem_cons_of_mem n hm) this
        simp [hz]
  -- n in the tail
      · have ha : f a = 0 :=
          h0 a (List.mem_cons_self a l) (fun he => (List.nodup_cons.mp hnd).1 (he ▸ h))
        simp only [List.map_cons, List.sum_cons, ha, Nat.zero_add]
        exact ih (List.nodup_cons.mp hnd).2 h (fun m hm => h0 m (List.mem_cons_of_mem a hm))

/-! ### Stability of the descending node sort -/

/-- Inserting `a` into `L` with the descending-by-count relation passes only
nodes with a strictly larger count, so the subsequence of nodes whose count
is any fixed value `c` is unchanged except that `a` is prepended to its own
class. -/
theorem orderedInsert_filter_count (counts : String → Nat) (c : Nat) (a : String)
    (L : List String) :
    (List.orderedInsert (fun x y => counts y ≤ counts x) a L).filter
        (fun n => counts n == c) =
      if counts a = c then
        a :: L.filter (fun n => counts n == c)
      else L.filter (fun n => counts n == c) := by
  induction L with
  | nil =>
      by_cases h : counts a = c <;>
        simp [List.orderedInsert, List.filter_cons, h]
  | cons b L ih =>
      rw [List.orderedInsert]
      by_cases hr : counts b ≤ counts a
      · rw [if_pos hr]
        by_cases h : counts a = c <;> simp [List.filter_cons, h]
      · rw [if_neg hr]
        by_cases hb : counts b = c
        · have ha : ¬ counts a = c := by omega
          simp [List.filter_cons, hb, ha, ih]
        · simp [List.filter_cons, hb, ih]

/-- The stable descending sort used for `ranked_nodes` keeps, for every
count value, the nodes having that count in their input order. -/
theorem insertionSort_filter_count (counts : String → Nat) (c : Nat) (l : List String) :
    (List.insertionSort (fun x y => counts y ≤ counts x) l).filter
        (fun n => counts n == c) =
      l.filter (fun n => counts n == c) := by
  induction l with
  | nil => rfl
  | cons a l ih =>
      rw [List.insertionSort, orderedInsert_filter_count]
      by_cases h : counts a = c <;> simp [List.filter_cons, h, ih]

/-! ### Facts about `compute_targets_fn` shared by the target theorems -/

/-- Pointwise description of the targets dictionary: everybody gets the
quotient, and one extra unit per occurrence among the first
`total mod len` ranked nodes. -/
theorem compute_targets_fn_apply (nodes : List String) (pods_by_node : String → List Pod)
    (n : String) :
    compute_targets_fn nodes pods_by_node n =
      total_pods nodes pods_by_node / nodes.length +
        ((ranked_nodes nodes pods_by_node).take
          (total_pods nodes pods_by_node % nodes.length)).count n := by
  unfold compute_targets_fn
  exact bump_foldl_apply _ _ n

theorem ranked_nodes_perm (nodes : List String) (pods_by_node : String → List Pod) :
    (ranked_nodes nodes pods_by_node).Perm nodes :=
  List.perm_insertionSort _ nodes

theorem ranked_nodes_nodup (nodes : List String) (pods_by_node : String → List Pod)
    (hnd : nodes.Nodup) : (ranked_nodes nodes pods_by_node).Nodup :=
  (ranked_nodes_perm nodes pods_by_node).symm.nodup hnd

/-- A pod carrying nothing but a name: no annotations, no owners, Running,
no priority, no start time. -/
def samplePod (nm : String) : Pod :=
  ⟨"default", nm, [], [], "Running", none, none⟩

/-- A sample inventory for witnesses: three pods on node `a`, nothing
elsewhere. -/
def pbnW : String → List Pod :=
  fun n => if n = "a" then [samplePod "p1", samplePod "p2", samplePod "p3"] else []

/-- C1: for every non-empty, duplicate-free list of node names and every
pod inventory (nodes outside the mapping count 0 pods), the targets mapping
returned by `compute_targets` is a total function on node names (so defined
on every supplied node), every target is a `Nat` (non-negative by
construction), the targets summed over the supplied nodes equal the total
pod count on those nodes, and any two targets differ by at most 1 (so the
maximum minus the minimum is at most 1). -/
theorem compute_targets_balanced (nodes : List String) (pods_by_node : String → List Pod)
    (t : String → Nat) (hnd : nodes.Nodup)
    (hok : compute_targets nodes pods_by_node = Except.ok t) :
    (nodes.map t).sum = (nodes.map (fun n => (pods_by_node n).length)).sum ∧
    ∀ a ∈ nodes, ∀ b ∈ nodes, t a ≤ t b + 1 := by
  unfold compute_targets at hok
  by_cases hlen : nodes.length = 0
  · rw [if_pos hlen] at hok
    cases hok
  rw [if_neg hlen] at hok
  have ht : t = compute_targets_fn nodes pods_by_node := (Except.ok.inj hok).symm
  subst ht
  have happly := compute_targets_fn_apply nodes pods_by_node
  have hBnodup : ((ranked_nodes nodes pods_by_node).take
      (total_pods nodes pods_by_node % nodes.length)).Nodup :=
    (List.take_sublist _ _).nodup (ranked_nodes_nodup _ _ hnd)
  constructor
  · have hBsub : ∀ b ∈ (ranked_nodes nodes pods_by_node).take
        (total_pods nodes pods_by_node % nodes.length), b ∈ nodes := fun b hb =>
      (ranked_nodes_perm nodes pods_by_node).mem_iff.mp (List.mem_of_mem_take hb)
    have hBlen : ((ranked_nodes nodes pods_by_node).take
        (total_pods nodes pods_by_node % nodes.length)).length =
        total_pods nodes pods_by_node % nodes.length := by
      rw [List.length_take, (ranked_nodes_perm nodes pods_by_node).length_eq]
      have hlt : total_pods nodes pods_by_node % nodes.length < nodes.length :=
        Nat.mod_lt _ (Nat.pos_of_ne_zero hlen)
      omega
    have h1 : nodes.map (compute_targets_fn nodes pods_by_node) =
        nodes.map (fun n => total_pods nodes pods_by_node / nodes.length +
          ((ranked_nodes nodes pods_by_node).take
            (total_pods nodes pods_by_node % nodes.length)).count n) :=
      List.map_congr_left (fun a _ => happly a)
    rw [h1, sum_map_add_nat, sum_map_const_nat,
      sum_map_count_eq_length nodes _ hnd hBsub, hBlen]
    have hdm := Nat.div_add_mod (total_pods nodes pods_by_node) nodes.length
    have htots : total_pods nodes pods_by_node =
        (nodes.map (fun n => (pods_by_node n).length)).sum := by
      unfold total_pods node_count
      rw [List.dedup_eq_self.mpr hnd]
    have hcomm : total_pods nodes pods_by_node / nodes.length * nodes.length =
        nodes.length * (total_pods nodes pods_by_node / nodes.length) :=
      Nat.mul_comm _ _
    omega
  · intro a _ b _
    have hca := List.nodup_iff_count_le_one.mp hBnodup a
    rw [happly a, happly b]
    omega

/-- Witness for C1 at the concrete input `nodes = [a, b]`, three pods on
`a`: targets sum to 3 and are spread by at most 1. -/
theorem compute_targets_balanced_witness :
    ((["a", "b"].map (compute_targets_fn ["a", "b"] pbnW)).sum =
      (["a", "b"].map (fun n => (pbnW n).length)).sum) ∧
    ∀ a ∈ ["a", "b"], ∀ b ∈ ["a", "b"],
      compute_targets_fn ["a", "b"] pbnW a ≤ compute_targets_fn ["a", "b"] pbnW b + 1 :=
  compute_targets_balanced ["a", "b"] pbnW (compute_targets_fn ["a", "b"] pbnW)
    (by decide) rfl

/-- C8: when the total is not a multiple of the node count, the
`extra = total mod len(nodes)` remainder units go one each to the first
`extra` nodes of a ranking that is a permutation of the input, is sorted
descending by current count, and keeps nodes of equal count in their input
relative order (a stable descending sort on count). -/
theorem compute_targets_remainder (nodes : List String) (pods_by_node : String → List Pod)
    (hnd : nodes.Nodup) :
    ∃ ranked : List String,
      ranked.Perm nodes ∧
      ranked.Sorted (fun a b => node_count pods_by_node b ≤ node_count pods_by_node a) ∧
      (∀ c : Nat, ranked.filter (fun n => node_count pods_by_node n == c) =
          nodes.filter (fun n => node_count pods_by_node n == c)) ∧
      (∀ n ∈ nodes,
        compute_targets_fn nodes pods_by_node n =
          total_pods nodes pods_by_node / nodes.length +
            (if n ∈ ranked.take (total_pods nodes pods_by_node % nodes.length)
             then 1 else 0)) := by
  refine ⟨ranked_nodes nodes pods_by_node, ranked_nodes_perm _ _, ?_, ?_, ?_⟩
  · letI : IsTotal String
        (fun a b => node_count pods_by_node b ≤ node_count pods_by_node a) :=
      ⟨fun a b => Nat.le_total (node_count pods_by_node b) (node_count pods_by_node a)⟩
    letI : IsTrans String
        (fun a b => node_count pods_by_node b ≤ node_count pods_by_node a) :=
      ⟨fun _ _ _ h1 h2 => le_trans h2 h1⟩
    exact List.sorted_insertionSort _ nodes
  · intro c
    exact insertionSort_filter_count (node_count pods_by_node) c nodes
  · intro n _
    rw [compute_targets_fn_apply]
    congr 1
    have hBnodup : ((ranked_nodes nodes pods_by_node).take
        (total_pods nodes pods_by_node % nodes.length)).Nodup :=
      (List.take_sublist _ _).nodup (ranked_nodes_nodup _ _ hnd)
    by_cases hmem : n ∈ (ranked_nodes nodes pods_by_node).take
        (total_pods nodes pods_by_node % nodes.length)
    · rw [if_pos hmem, List.count_eq_one_of_mem hBnodup hmem]
    · rw [if_neg hmem, List.count_eq_zero_of_not_mem hmem]

/-- Witness for C8 at `nodes = [a, b]`, three pods on `a`: total 3, so one
remainder unit goes to `a`, the highest-count node. -/
theorem compute_targets_remainder_witness :
    ∃ ranked : List String,
      ranked.Perm ["a", "b"] ∧
      ranked.Sorted (fun a b => node_count pbnW b ≤ node_count pbnW a) ∧
      (∀ c : Nat, ranked.filter (fun n => node_count pbnW n == c) =
          ["a", "b"].filter (fun n => node_count pbnW n == c)) ∧
      (∀ n ∈ ["a", "b"],
        compute_targets_fn ["a", "b"] pbnW n =
          total_pods ["a", "b"] pbnW / (["a", "b"] : List String).length +
            (if n ∈ ranked.take (total_pods ["a", "b"] pbnW % (["a", "b"] : List String).length)
             then 1 else 0)) :=
  compute_targets_remainder ["a", "b"] pbnW (by decide)

/-- C9 counterexample: on an empty node list, `compute_targets` does not
fail with the `EmptyNodeSet` error the specification names - the source
has no such error and instead crashes in `divmod` with `ZeroDivisionError`.
-/
theorem compute_targets_empty_not_emptyNodeSet :
    compute_targets [] (fun _ => []) ≠ Except.error EqError.emptyNodeSet := by
  intro h
  have h2 : (Except.error EqError.zeroDivisionError : Except EqError (String → Nat)) =
      Except.error EqError.emptyNodeSet := h
  have h3 : EqError.zeroDivisionError = EqError.emptyNodeSet := Except.error.inj h2
  exact absurd h3 (by decide)

/-- C9 amended: when `compute_targets` is supplied an empty node list it
does fail (the target is undefined), but with the unhandled
`ZeroDivisionError` raised by `divmod(total, 0)`, not with a dedicated
`EmptyNodeSet` error. -/
theorem compute_targets_empty_zero_division (pods_by_node : String → List Pod) :
    compute_targets [] pods_by_node = Except.error EqError.zeroDivisionError := rfl

/-! ### Evictability (C3) -/

/-- A Running pod whose config-mirror annotation is present but empty: the
source's truthiness test does not block it, although the annotation is
carried. -/
def mirrorEmptyPod : Pod :=
  ⟨"default", "mirror-empty", [("kubernetes.io/config.mirror", "")], [], "Running", none, none⟩

/-- C3 counterexample: the claimed characterisation - false exactly for
DaemonSet-owned, safe-to-evict=false, config-mirror annotation present, or
phase outside Pending/Running - fails at a Running pod carrying the
config-mirror annotation with an empty value: the predicate returns true
(Python truthiness ignores an empty string), yet the pod carries the
annotation. -/
theorem _is_evictable_mirror_counterexample :
    ¬ (_is_evictable mirrorEmptyPod = false ↔
        (_is_managed_by_daemonset mirrorEmptyPod = true ∨
         annGet mirrorEmptyPod.annotations "cluster-autoscaler.kubernetes.io/safe-to-evict" =
           some "false" ∨
         (annGet mirrorEmptyPod.annotations "kubernetes.io/config.mirror").isSome = true ∨
         ¬ (mirrorEmptyPod.phase = "Pending" ∨ mirrorEmptyPod.phase = "Running"))) := by
  decide

/-- C3 amended: `_is_evictable` returns false exactly when the pod is
DaemonSet-owned, or annotated safe-to-evict with the string `false`, or
carries the config-mirror annotation with a non-empty (truthy) value, or
has a phase other than Pending or Running; every Pending or Running pod
without those markers is evictable. -/
theorem _is_evictable_characterization (p : Pod) :
    _is_evictable p = false ↔
      (_is_managed_by_daemonset p = true ∨
       annGet p.annotations "cluster-autoscaler.kubernetes.io/safe-to-evict" = some "false" ∨
       truthy (annGet p.annotations "kubernetes.io/config.mirror") = true ∨
       ¬ (p.phase = "Pending" ∨ p.phase = "Running")) := by
  unfold _is_evictable
  split_ifs with h1 h2 h3 h4 <;> simp_all

/-! ### Candidate ordering (C4, C5) -/

theorem _pod_sort_key_fst (p : Pod) : (_pod_sort_key p).1 = p.priority.getD 0 := rfl

theorem _pod_sort_key_snd_some (p : Pod) (t : Int) (h : p.startTime = some t) :
    (_pod_sort_key p).2 = some (-t) := by
  simp [_pod_sort_key, h]

theorem _pod_sort_key_snd_none (p : Pod) (h : p.startTime = none) :
    (_pod_sort_key p).2 = none := by
  simp [_pod_sort_key, h]

/-- C4: the candidate ordering sorts ascending by `(priority, -startTime)`:
in the output, an earlier pod never has a larger priority than a later one
(so strictly lower priorities come first), and among equal priorities with
known start times the earlier pod has the newer (not smaller) start time. -/
theorem node_candidates_order (pods_by_node : String → List Pod) (node : String) :
    (node_candidates pods_by_node node).Pairwise (fun p q =>
      p.priority.getD 0 ≤ q.priority.getD 0 ∧
      (p.priority.getD 0 = q.priority.getD 0 →
        ∀ tp tq : Int, p.startTime = some tp → q.startTime = some tq → tq ≤ tp)) := by
  have hs : (node_candidates pods_by_node node).Pairwise podLE :=
    List.sorted_insertionSort podLE ((pods_by_node node).filter (fun p => _is_evictable p))
  refine hs.imp ?_
  intro p q hpq
  have h := (keyLE_iff _ _).mp hpq
  rw [_pod_sort_key_fst, _pod_sort_key_fst] at h
  constructor
  · rcases h with h | ⟨he, _⟩
    · exact le_of_lt h
    · exact le_of_eq he
  · intro heq tp tq hp hq
    rcases h with h | ⟨he, hn⟩
    · omega
    · rw [_pod_sort_key_snd_some p tp hp, _pod_sort_key_snd_some q tq hq] at hn
      simp [negLE] at hn
      omega

/-- A Running pod that started at time 0. -/
def podWithStart : Pod := ⟨"default", "older", [], [], "Running", none, some 0⟩

/-- A Running pod with no recorded start time. -/
def podNoStart : Pod := ⟨"default", "nostart", [], [], "Running", none, none⟩

/-- An inventory placing `podWithStart` then `podNoStart` on every node. -/
def pbnNoStart : String → List Pod := fun _ => [podWithStart, podNoStart]

/-- C5 counterexample: with two same-priority Running pods, one started at
time 0 and one without a start time, the ordering places the no-start pod
before the pod that has a start time - it is preferentially evicted, not
ordered last. -/
theorem no_start_ordered_last_counterexample :
    ¬ ((node_candidates pbnNoStart "a").Pairwise (fun p q =>
        p.priority.getD 0 = q.priority.getD 0 →
        p.startTime = none → q.startTime = none)) := by
  intro hpw
  have h1 : node_candidates pbnNoStart "a" = [podNoStart, podWithStart] := by decide
  rw [h1] at hpw
  have h2 := (List.pairwise_cons.mp hpw).1 podWithStart (by simp) rfl rfl
  exact absurd h2 (by decide)

/-- C5 amended: the source maps a missing start time to `+inf` and then
negates the key, so a pod with no start time sorts first among pods of the
same priority: whenever a later pod of the output has no start time, every
earlier same-priority pod has no start time either (no-start pods are
preferentially evicted). -/
theorem no_start_ordered_first (pods_by_node : String → List Pod) (node : String) :
    (node_candidates pods_by_node node).Pairwise (fun p q =>
      p.priority.getD 0 = q.priority.getD 0 →
      q.startTime = none → p.startTime = none) := by
  have hs : (node_candidates pods_by_node node).Pairwise podLE :=
    List.sorted_insertionSort podLE ((pods_by_node node).filter (fun p => _is_evictable p))
  refine hs.imp ?_
  intro p q hpq heq hqnone
  have h := (keyLE_iff _ _).mp hpq
  rw [_pod_sort_key_fst, _pod_sort_key_fst] at h
  rcases h with h | ⟨he, hn⟩
  · omega
  · rw [_pod_sort_key_snd_none q hqnone] at hn
    cases hx : p.startTime with
    | none => rfl
    | some t =>
        rw [_pod_sort_key_snd_some p t hx] at hn
        simp [negLE] at hn

/-! ### Plan construction (C2) -/

/-- Plan entries contributed by a different node never mention `n`. -/
theorem countP_node_plan_ne (pods_by_node : String → List Pod) (targets : String → Nat)
    {m n : String} (hm : m ≠ n) :
    (node_plan pods_by_node targets m).countP (fun e => e.1 == n) = 0 := by
  unfold node_plan
  split_ifs with h h2 <;>
    [simp;
     (rw [List.countP_map]
      apply List.countP_eq_zero.mpr
      intro a _
      simp only [Function.comp]
      simp [hm]);
     (rw [List.countP_map]
      apply List.countP_eq_zero.mpr
      intro a _
      simp only [Function.comp]
      simp [hm])]

/-- Every plan entry contributed by node `n` mentions `n`, so counting them
gives the contribution's length. -/
theorem countP_node_plan_self (pods_by_node : String → List Pod) (targets : String → Nat)
    (n : String) :
    (node_plan pods_by_node targets n).countP (fun e => e.1 == n) =
      (node_plan pods_by_node targets n).length := by
  apply List.countP_eq_length.mpr
  intro e he
  unfold node_plan at he
  split_ifs at he with h h2
  · simp at he
  · rcases List.mem_map.mp he with ⟨p, _, rfl⟩
    simp
  · rcases List.mem_map.mp he with ⟨p, _, rfl⟩
    simp

/-- Counting a node's entries in the whole plan gives the length of that
node's contribution. -/
theorem countP_plan (nodes : List String) (pods_by_node : String → List Pod)
    (targets : String → Nat) (n : String) (hnd : nodes.Nodup) (hn : n ∈ nodes) :
    (plan_evictions nodes pods_by_node targets).countP (fun e => e.1 == n) =
      (node_plan pods_by_node targets n).length := by
  unfold plan_evictions
  rw [List.countP_flatten, List.map_map]
  exact (sum_map_eq_single nodes
      (fun m => (node_plan pods_by_node targets m).countP (fun e => e.1 == n)) n hnd hn
      (fun m _ hmn => countP_node_plan_ne pods_by_node targets hmn)).trans
    (countP_node_plan_self pods_by_node targets n)

theorem node_plan_length_le (pods_by_node : String → List Pod) (targets : String → Nat)
    (n : String) :
    (node_plan pods_by_node targets n).length ≤ (node_candidates pods_by_node n).length := by
  unfold node_plan
  split_ifs with h h2
  · simp
  · simp only [List.length_map, List.length_take]
    omega
  · simp only [List.length_map, List.length_take]
    omega

theorem node_plan_length_shortage (pods_by_node : String → List Pod)
    (targets : String → Nat) (n : String)
    (hsh : ((node_candidates pods_by_node n).length : Int) <
      node_overload pods_by_node targets n) :
    (node_plan pods_by_node targets n).length = (node_candidates pods_by_node n).length := by
  have hpos : ¬ node_overload pods_by_node targets n ≤ 0 := by
    have h0 : (0 : Int) ≤ ((node_candidates pods_by_node n).length : Int) :=
      Int.natCast_nonneg _
    omega
  unfold node_plan
  rw [if_neg hpos, if_pos hsh, Int.toNat_ofNat, List.take_length, List.length_map]

/-- C2: for every node of a duplicate-free input, the plan contains at most
as many entries for that node as the node has evictable candidates; and
whenever the candidates are fewer than the node's overload (current count
minus target), a shortage warning carrying that node, the required overload
and the available candidate count is emitted, and the node's eviction count
equals the number of evictable candidates. -/
theorem plan_evictions_shortage (nodes : List String) (pods_by_node : String → List Pod)
    (targets : String → Nat) (n : String) (hnd : nodes.Nodup) (hn : n ∈ nodes) :
    (plan_evictions nodes pods_by_node targets).countP (fun e => e.1 == n) ≤
      ((pods_by_node n).filter (fun p => _is_evictable p)).length ∧
    (((((pods_by_node n).filter (fun p => _is_evictable p)).length : Int) <
        node_overload pods_by_node targets n) →
      (∃ w ∈ plan_warnings nodes pods_by_node targets,
          w.node = n ∧
          w.required = node_overload pods_by_node targets n ∧
          w.available = ((pods_by_node n).filter (fun p => _is_evictable p)).length) ∧
      (plan_evictions nodes pods_by_node targets).countP (fun e => e.1 == n) =
        ((pods_by_node n).filter (fun p => _is_evictable p)).length) := by
  have hclen : (node_candidates pods_by_node n).length =
      ((pods_by_node n).filter (fun p => _is_evictable p)).length :=
    List.length_insertionSort _ _
  have hcount := countP_plan nodes pods_by_node targets n hnd hn
  constructor
  · rw [hcount, ← hclen]
    exact node_plan_length_le pods_by_node targets n
  · intro hsh
    rw [← hclen] at hsh
    have hpos : ¬ node_overload pods_by_node targets n ≤ 0 := by
      have h0 : (0 : Int) ≤ ((node_candidates pods_by_node n).length : Int) :=
        Int.natCast_nonneg _
      omega
    have hse : node_shortage pods_by_node targets n =
        some ⟨n, node_overload pods_by_node targets n,
          (node_candidates pods_by_node n).length,
          node_overload pods_by_node targets n -
            ((node_candidates pods_by_node n).length : Int)⟩ := by
      unfold node_shortage
      rw [if_neg hpos, if_pos hsh]
    refine ⟨⟨_, List.mem_filterMap.mpr ⟨n, hn, hse⟩, rfl, rfl, hclen⟩, ?_⟩
    rw [hcount, ← hclen]
    exact node_plan_length_shortage pods_by_node targets n hsh

/-- A pod in phase Succeeded: not evictable. -/
def succeededPod : Pod := ⟨"default", "done", [], [], "Succeeded", none, none⟩

/-- An inventory with two pods on node `a`, only one of them evictable. -/
def pbnShort : String → List Pod :=
  fun n => if n = "a" then [samplePod "ok", succeededPod] else []

/-- Witness for C2 at the concrete input: one node with two pods, one
evictable, target 0 - overload 2 exceeds the single candidate, so the node
plans one eviction and warns. -/
theorem plan_evictions_shortage_witness :
    (plan_evictions ["a"] pbnShort (fun _ => 0)).countP (fun e => e.1 == "a") ≤
      ((pbnShort "a").filter (fun p => _is_evictable p)).length ∧
    (((((pbnShort "a").filter (fun p => _is_evictable p)).length : Int) <
        node_overload pbnShort (fun _ => 0) "a") →
      (∃ w ∈ plan_warnings ["a"] pbnShort (fun _ => 0),
          w.node = "a" ∧
          w.required = node_overload pbnShort (fun _ => 0) "a" ∧
          w.available = ((pbnShort "a").filter (fun p => _is_evictable p)).length) ∧
      (plan_evictions ["a"] pbnShort (fun _ => 0)).countP (fun e => e.1 == "a") =
        ((pbnShort "a").filter (fun p => _is_evictable p)).length) :=
  plan_evictions_shortage ["a"] pbnShort (fun _ => 0) "a" (by decide) (by decide)

/-! ### Plan execution (C6, C7, C10) -/

/-- With a never-failing sink and no dry run, the loop performs evictions
until the budget `k` is exhausted, then warns and stops: it attempts
exactly the next `k - c` pods of the plan. -/
theorem execute_plan_go_all_success (evict : Pod → Bool) (k : Nat)
    (hall : ∀ p, evict p = true) :
    ∀ (plan : List (String × Pod)) (c : Nat), c ≤ k → k - c < plan.length →
      execute_plan_go evict false (some k) plan c =
        ⟨k, (plan.map Prod.snd).take (k - c), [], true⟩ := by
  intro plan
  induction plan with
  | nil =>
      intro c _ h
      simp at h
  | cons e rest ih =>
      intro c hck hlen
      obtain ⟨node, pod⟩ := e
      simp only [execute_plan_go]
      by_cases hc : k ≤ c
      · have hcr : capReached (some k) c = true := by
          simp [capReached]
          omega
        rw [if_pos hcr]
        have hck2 : c = k := le_antisymm hck hc
        rw [hck2]
        simp
      · have hcr : capReached (some k) c = false := by
          simp [capReached]
          omega
        rw [if_neg (by simp [hcr])]
        rw [if_neg (by simp)]
        rw [if_pos (hall pod)]
        rw [ih (c + 1) (by omega) (by simp at hlen ⊢; omega)]
        have hkc : k - c = (k - (c + 1)) + 1 := by omega
        rw [hkc]
        simp [List.take_succ_cons]

/-- C6: with `maxEvictions = k`, a plan longer than `k`, a never-failing
sink and no dry run, `execute_plan` performs exactly `k` eviction calls
(the first `k` plan entries, in order), returns `k`, never attempts the
remaining entries, and emits the cap-reached warning when it stops. -/
theorem execute_plan_cap (plan : List (String × Pod)) (evict : Pod → Bool) (k : Nat)
    (hall : ∀ p, evict p = true) (hlen : k < plan.length) :
    execute_plan plan evict false (some k) =
      ⟨k, (plan.map Prod.snd).take k, [], true⟩ := by
  unfold execute_plan
  cases plan with
  | nil => simp at hlen
  | cons e rest =>
      rw [if_neg (by simp)]
      rw [execute_plan_go_all_success evict k hall (e :: rest) 0 (Nat.zero_le k)
        (by omega)]
      simp

/-- Witness for C6: a two-entry plan, cap 1, never-failing sink - one
eviction is performed, one entry is left unattempted, and the warning is
set. -/
theorem execute_plan_cap_witness :
    execute_plan [("a", samplePod "p1"), ("a", samplePod "p2")] (fun _ => true) false
        (some 1) =
      ⟨1, (([("a", samplePod "p1"), ("a", samplePod "p2")] :
          List (String × Pod)).map Prod.snd).take 1, [], true⟩ :=
  execute_plan_cap [("a", samplePod "p1"), ("a", samplePod "p2")] (fun _ => true) 1
    (fun _ => rfl) (by decide)

/-- Without a cap and outside dry run, the loop attempts every plan entry in
order, logs exactly the failing pods, never warns, and counts exactly the
successful calls. -/
theorem execute_plan_go_no_cap (evict : Pod → Bool) :
    ∀ (plan : List (String × Pod)) (c : Nat),
      execute_plan_go evict false none plan c =
        ⟨c + ((plan.map Prod.snd).filter evict).length,
         plan.map Prod.snd,
         (plan.map Prod.snd).filter (fun p => !(evict p)),
         false⟩ := by
  intro plan
  induction plan with
  | nil =>
      intro c
      simp [execute_plan_go]
  | cons e rest ih =>
      intro c
      obtain ⟨node, pod⟩ := e
      simp only [execute_plan_go]
      rw [if_neg (by simp [capReached])]
      rw [if_neg (by simp)]
      by_cases hev : evict pod = true
      · rw [if_pos hev]
        rw [ih (c + 1)]
        simp [List.filter_cons, hev]
        try omega
      · have hevf : evict pod = false := by
          cases hb : evict pod
          · rfl
          · exact absurd hb hev
        rw [if_neg hev]
        rw [ih c]
        simp [List.filter_cons, hevf]
        try omega

/-- C7: with no cap and no dry run, for every sink `execute_plan` attempts
every plan entry (a failing call never prevents later entries from being
attempted), records an error for exactly the pods whose call failed, and
returns exactly the number of calls that succeeded. -/
theorem execute_plan_failure_tolerant (plan : List (String × Pod)) (evict : Pod → Bool) :
    execute_plan plan evict false none =
      ⟨((plan.map Prod.snd).filter evict).length,
       plan.map Prod.snd,
       (plan.map Prod.snd).filter (fun p => !(evict p)),
       false⟩ := by
  unfold execute_plan
  cases plan with
  | nil => simp
  | cons e rest =>
      rw [if_neg (by simp)]
      rw [execute_plan_go_no_cap evict (e :: rest) 0]
      simp

/-- The loop's counter invariants: the final count equals the starting
count plus the number of successful attempted calls; it grows by at most
the number of plan entries; and it never exceeds a set cap once the
starting count respects it. -/
theorem execute_plan_go_invariants (evict : Pod → Bool) (dry_run : Bool)
    (max_evictions : Option Nat) :
    ∀ (plan : List (String × Pod)) (c : Nat),
      (execute_plan_go evict dry_run max_evictions plan c).performed =
          c + ((execute_plan_go evict dry_run max_evictions plan c).attempts.filter
            evict).length ∧
      (execute_plan_go evict dry_run max_evictions plan c).performed ≤ c + plan.length ∧
      (∀ k, max_evictions = some k → c ≤ k →
        (execute_plan_go evict dry_run max_evictions plan c).performed ≤ k) := by
  intro plan
  induction plan with
  | nil =>
      intro c
      refine ⟨by simp [execute_plan_go], by simp [execute_plan_go], ?_⟩
      intro k _ hck
      simpa [execute_plan_go] using hck
  | cons e rest ih =>
      intro c
      obtain ⟨node, pod⟩ := e
      simp only [execute_plan_go]
      by_cases hcap : capReached max_evictions c = true
      · rw [if_pos hcap]
        refine ⟨by simp, by simp, ?_⟩
        intro k _ hck
        simpa using hck
      · rw [if_neg hcap]
        by_cases hdry : dry_run = true
        · rw [if_pos hdry]
          rcases ih c with ⟨h1, h2, h3⟩
          exact ⟨h1, by simp only [List.length_cons]; omega, h3⟩
        · rw [if_neg hdry]
          by_cases hev : evict pod = true
          · rw [if_pos hev]
            rcases ih (c + 1) with ⟨h1, h2, h3⟩
            dsimp only
            refine ⟨?_, ?_, ?_⟩
            · simp only [List.filter_cons, hev, if_true, List.length_cons]
              omega
            · simp only [List.length_cons]
              omega
            · intro k hk hck
              apply h3 k hk
              subst hk
              have hlt : ¬ k ≤ c := fun hle => hcap (by simp [capReached]; omega)
              omega
          · have hevf : evict pod = false := by
              cases hb : evict pod
              · rfl
              · exact absurd hb hev
            rw [if_neg hev]
            rcases ih c with ⟨h1, h2, h3⟩
            dsimp only
            refine ⟨?_, ?_, h3⟩
            · simp only [List.filter_cons, hevf, Bool.false_eq_true, if_false]
              exact h1
            · simp only [List.length_cons]
              omega

/-- C10: the returned count never exceeds the plan length; with
`maxEvictions = k` it never exceeds `k`; only successful calls are counted
(the count equals the number of attempted calls that succeeded); and, since
failures do not count toward the cap, the number of attempted calls can
exceed the cap, as the concrete run with two failures under cap 1 shows. -/
theorem execute_plan_count_bounds (plan : List (String × Pod)) (evict : Pod → Bool)
    (dry_run : Bool) (max_evictions : Option Nat) :
    (execute_plan plan evict dry_run max_evictions).performed ≤ plan.length ∧
    (∀ k, max_evictions = some k →
      (execute_plan plan evict dry_run max_evictions).performed ≤ k) ∧
    (execute_plan plan evict dry_run max_evictions).performed =
      ((execute_plan plan evict dry_run max_evictions).attempts.filter evict).length ∧
    1 < (execute_plan
          [("a", samplePod "f1"), ("a", samplePod "f2"), ("a", samplePod "s")]
          (fun p => p.name == "s") false (some 1)).attempts.length := by
  have hconc : 1 < (execute_plan
      [("a", samplePod "f1"), ("a", samplePod "f2"), ("a", samplePod "s")]
      (fun p => p.name == "s") false (some 1)).attempts.length := by decide
  unfold execute_plan
  cases plan with
  | nil => exact ⟨by simp, fun k _ => by simp, by simp, hconc⟩
  | cons e rest =>
      rw [if_neg (by simp)]
      rcases execute_plan_go_invariants evict dry_run max_evictions (e :: rest) 0 with
        ⟨h1, h2, h3⟩
      refine ⟨by omega, ?_, by simpa using h1, hconc⟩
      intro k hk
      exact h3 k hk (Nat.zero_le k)

/-- Witness for C10 at a concrete plan: a single entry whose call fails,
with cap 0. -/
theorem execute_plan_count_bounds_witness :
    (execute_plan [("a", samplePod "x")] (fun _ => false) false (some 0)).performed ≤
      ([("a", samplePod "x")] : List (String × Pod)).length ∧
    (∀ k, (some 0 : Option Nat) = some k →
      (execute_plan [("a", samplePod "x")] (fun _ => false) false (some 0)).performed ≤ k) ∧
    (execute_plan [("a", samplePod "x")] (fun _ => false) false (some 0)).performed =
      ((execute_plan [("a", samplePod "x")] (fun _ => false) false
          (some 0)).attempts.filter (fun _ => false)).length ∧
    1 < (execute_plan
          [("a", samplePod "f1"), ("a", samplePod "f2"), ("a", samplePod "s")]
          (fun p => p.name == "s") false (some 1)).attempts.length :=
  execute_plan_count_bounds [("a", samplePod "x")] (fun _ => false) false (some 0)

end Equalizer
